import Mathlib

/-
Verification of the kien command-interpreter core against its natural-language
specification.  The definitions below are a shallow embedding of the Python
sources (kien/commands.py, kien/transformation.py, kien/validation.py,
kien/utils.py): pure functions become Lean functions, exception-raising code
returns `Except`, and Python's mutable loop state is threaded explicitly.
-/

namespace Kien

/-- A `ValidationError` (kien/validation.py); only its message payload is
relevant to the properties under study. -/
structure VErr where
  message : String
deriving Repr, DecidableEq

/-- A runtime value flowing through argument building and injection: raw
argument strings, booleans produced by transformers, and lists produced by
greedy tokens or `collect` injections. -/
inductive PyVal where
  | str (s : String)
  | bool (b : Bool)
  | list (xs : List PyVal)

/-- Python truthiness of an optional string attribute: `None` and the empty
string are falsy (`if token.name:` in the source). -/
def pyTruthy (o : Option String) : Option String :=
  match o with
  | some s => if s.isEmpty then none else some s
  | none => none

/-- The `one_of` validator (kien/validation.py line 201): raises
`ValidationError` when the value is not among the choices.  (The Python
message sorts the choices; the ordering of the message text is irrelevant
to every claim.) -/
def one_of (choices : List String) (value : String) : Except VErr Unit :=
  if value ∈ choices then .ok ()
  else .error ⟨"must be one of: " ++ String.intercalate ", " choices⟩

/-- `TRUE_CHOICES` from kien/transformation.py line 9. -/
def TRUE_CHOICES : List String := ["true", "1", "on", "yes", "enable"]

/-- `FALSE_CHOICES` from kien/transformation.py line 10. -/
def FALSE_CHOICES : List String := ["false", "0", "off", "no", "disable"]

/-- Failure modes of `to_bool`: the `ValidationError` raised by its
`validate_value` call, or the terminal `assert False`. -/
inductive ToBoolErr where
  | validation (e : VErr)
  | assertion
deriving Repr, DecidableEq

/-- `to_bool` (kien/transformation.py lines 102-111): first validates the
value against the union of the true/false choices, then maps it to a
boolean; the final `assert False` branch is represented by
`ToBoolErr.assertion`. -/
def to_bool (value : String) : Except ToBoolErr Bool :=
  match one_of (TRUE_CHOICES ++ FALSE_CHOICES) value with
  | .error e => .error (.validation e)
  | .ok () =>
    if value ∈ TRUE_CHOICES then .ok true
    else if value ∈ FALSE_CHOICES then .ok false
    else .error .assertion

/-- A transform object attached to a variable token.  `Token.matches` calls
`getattr(self.transform, 'validate', noop)` (so the validation hook is
optional), while `_build_args` applies the transform itself via
`transform_value`; either call may raise `ValidationError`. -/
structure Transform where
  validateHook : Option (String → Except VErr Unit)
  apply : String → Except VErr PyVal

/-- `_Token` (kien/commands.py lines 37-61).  `value = none` encodes the
`_Undefined` sentinel.  `isVariable`/`isPlaceholder` model the `_Variable`
and `_Placeholder` subclass flags.  The `disabled`/description metadata not
used by matching is omitted. -/
structure Token where
  value : Option String := none
  name : Option String := none
  isOptional : Bool := false
  greedy : Bool := false
  transform : Option Transform := none
  choices : List String := []
  aliases : List String := []
  isVariable : Bool := false
  isPlaceholder : Bool := false

/-- `var(name, ...)` (kien/commands.py line 121): a `_Variable`. -/
def var (name : String) (isOptional : Bool := false) (greedy : Bool := false)
    (transform : Option Transform := none) (choices : List String := []) : Token :=
  { name := some name, isOptional, greedy, transform, choices, isVariable := true }

/-- `keyword(value, aliases)` (kien/commands.py line 130): a literal `_Token`. -/
def keyword (value : String) (aliases : List String := []) : Token :=
  { value := some value, aliases }

/-- `optional(value)` (kien/commands.py line 126): an optional `_Placeholder`. -/
def optionalTok (value : String) : Token :=
  { value := some value, isOptional := true, isPlaceholder := true }

/-- `_Token.matches` (kien/commands.py lines 63-74).  A literal token
compares the value (or its aliases); a named token first runs the
transform's validation hook, then the `one_of` choices check, each of which
may raise `ValidationError`; otherwise the token matches. -/
def Token.matchesArg (t : Token) (arg : String) : Except VErr Bool :=
  match t.value with
  | some v => .ok (v == arg || t.aliases.contains arg)
  | none =>
    let step1 : Except VErr Unit :=
      if (pyTruthy t.name).isSome then
        match t.transform with
        | some tr =>
          match tr.validateHook with
          | some f => f arg
          | none => .ok ()
        | none => .ok ()
      else .ok ()
    match step1 with
    | .error e => .error e
    | .ok () =>
      let step2 : Except VErr Unit :=
        if (pyTruthy t.name).isSome && !t.choices.isEmpty then one_of t.choices arg
        else .ok ()
      match step2 with
      | .error e => .error e
      | .ok () => .ok true

/-- `TokenMismatch` (kien/utils.py line 26): a token whose validation
rejected the provided value. -/
structure TokenMismatch where
  token : Token
  exception : VErr
  value : String

/-- The three-way match classification (`_InvalidCommandMatch`,
`_PartialCommandMatch`, `_ExactCommandMatch`; kien/commands.py
lines 166-188). -/
inductive MatchRes where
  | invalid
  | part (token : Option Token) (mismatches : List TokenMismatch)
  | exact

/-- True exactly for `_ExactCommandMatch` results. -/
def MatchRes.isExact : MatchRes → Bool
  | .exact => true
  | _ => false

/-- True exactly for `_PartialCommandMatch` results. -/
def MatchRes.isPart : MatchRes → Bool
  | .part _ _ => true
  | _ => false

/-- `_find_token(tokens, index)` (kien/commands.py lines 138-144): the
token at `index`, falling back to a greedy last token; `none` models the
raised `IndexError` (which `tokens[-1]` also raises on an empty chain). -/
def findToken (tokens : List Token) (index : Nat) : Option Token :=
  if h : index < tokens.length then some (tokens.get ⟨index, h⟩)
  else
    match tokens.getLast? with
    | some t => if t.greedy then some t else none
    | none => none

/-- The leftover-token phase of `_Command.match` (kien/commands.py
lines 351-361): the first required token past the consumed prefix makes the
match Partial; otherwise collected mismatches make it Partial, else Exact. -/
def leftoverResult (tokens : List Token) (consumed : Nat)
    (mismatches : List TokenMismatch) : MatchRes :=
  match (tokens.drop consumed).find? (fun t => !t.isOptional) with
  | some t => .part (some t) mismatches
  | none => if mismatches.isEmpty then .exact else .part none mismatches

/-- The argument-scanning loop of `_Command.match` (kien/commands.py
lines 326-349), with the loop's early `return` statements producing the
final result directly and the `invalid_tokens` accumulator threaded
through. -/
def matchScan (tokens : List Token) (index : Nat) (acc : List TokenMismatch) :
    List String → MatchRes
  | [] => leftoverResult tokens index acc
  | arg :: rest =>
    match findToken tokens index with
    | none => .invalid
    | some t =>
      match t.matchesArg arg with
      | .ok false => .invalid
      | .ok true => matchScan tokens (index + 1) acc rest
      | .error e =>
        if t.isVariable then matchScan tokens (index + 1) (acc ++ [⟨t, e, arg⟩]) rest
        else .invalid

/-- The scanning loop in isolation: `none` when a step returns Invalid,
otherwise the ordered list of recorded `TokenMismatch`es.  Used to state the
two-phase reading of `match` given in the specification. -/
def collectMismatches (tokens : List Token) (index : Nat) :
    List String → Option (List TokenMismatch)
  | [] => some []
  | arg :: rest =>
    match findToken tokens index with
    | none => none
    | some t =>
      match t.matchesArg arg with
      | .ok false => none
      | .ok true => collectMismatches tokens (index + 1) rest
      | .error e =>
        if t.isVariable then
          (collectMismatches tokens (index + 1) rest).map (fun ms => ⟨t, e, arg⟩ :: ms)
        else none

/-- `_Injection` (kien/commands.py lines 450-455).  `default = none` encodes
the `_Undefined` sentinel. -/
structure Injection where
  key : String
  injectAs : String
  collect : Bool
  default : Option PyVal

/-- `_Command` (kien/commands.py lines 286-295).  The optional `parent`
field is encoded as the two constructors; `func` and `group` are omitted
(matching never consults them), and the `is_disabled` predicate is modelled
by its boolean value on this command. -/
inductive Cmd where
  | root (tokens : List Token) (isAbstract : Bool) (isDisabled : Bool)
      (inject : List Injection)
  | child (tokens : List Token) (isAbstract : Bool) (isDisabled : Bool)
      (inject : List Injection) (parent : Cmd)

/-- The command's own tokens. -/
def Cmd.tokens : Cmd → List Token
  | .root ts _ _ _ => ts
  | .child ts _ _ _ _ => ts

/-- The command's optional parent. -/
def Cmd.parent : Cmd → Option Cmd
  | .root _ _ _ _ => none
  | .child _ _ _ _ p => some p

/-- `is_abstract`. -/
def Cmd.isAbstract : Cmd → Bool
  | .root _ a _ _ => a
  | .child _ a _ _ _ => a

/-- The evaluated `is_disabled` property (kien/commands.py lines 381-384). -/
def Cmd.isDisabled : Cmd → Bool
  | .root _ _ d _ => d
  | .child _ _ d _ _ => d

/-- `is_executable` (kien/commands.py lines 386-388). -/
def Cmd.isExecutable (c : Cmd) : Bool :=
  !c.isAbstract && !c.isDisabled

/-- `all_tokens` (kien/commands.py lines 399-404): the parent chain's tokens
followed by the command's own tokens. -/
def Cmd.all_tokens : Cmd → List Token
  | .root ts _ _ _ => ts
  | .child ts _ _ _ p => p.all_tokens ++ ts

/-- The own-token lists along the parent chain, root first; used to state
the multi-level reading of `all_tokens`. -/
def Cmd.chainTokens : Cmd → List (List Token)
  | .root ts _ _ _ => [ts]
  | .child ts _ _ _ p => p.chainTokens ++ [ts]

/-- `_Command.match` (kien/commands.py lines 319-361). -/
def Cmd.matchArgs (c : Cmd) (args : List String) : MatchRes :=
  if !c.isExecutable then .invalid
  else matchScan c.all_tokens 0 [] args

/-- The chain has no greedy fallback at its end: an empty chain, or a last
token that is not greedy (so `_find_token` raises `IndexError` past the
end). -/
def noGreedyTail (tokens : List Token) : Prop :=
  ∀ t, tokens.getLast? = some t → t.greedy = false

/-- Assignment into the `result_args` dict of `_build_args`: replace an
existing binding for the key, else append it. -/
def upsert (m : List (String × PyVal)) (k : String) (v : PyVal) : List (String × PyVal) :=
  if m.any (fun p => p.1 == k) then m.map (fun p => if p.1 == k then (k, v) else p)
  else m ++ [(k, v)]

/-- Dict lookup in the built argument map. -/
def lookupVal (m : List (String × PyVal)) (k : String) : Option PyVal :=
  (m.find? (fun p => p.1 == k)).map (·.2)

/-- `_build_args(tokens, args)` (kien/commands.py lines 422-447).  The loop
stops once the raw args are depleted; a greedy token takes `args[0:]` (the
whole remaining list, without popping), any other token pops one arg; a
transform is mapped over the elements when the argument is a (non-string)
iterable, i.e. exactly in the greedy case; an unnamed token just consumes
its arg.  A transform raising `ValidationError` propagates. -/
def buildArgs : List Token → List String → List (String × PyVal) →
    Except VErr (List (String × PyVal))
  | [], _, acc => .ok acc
  | _, [], acc => .ok acc
  | t :: ts, arg :: rest, acc =>
    match pyTruthy t.name with
    | some n =>
      if t.greedy then
        let remaining := arg :: rest
        match t.transform with
        | some tr =>
          match remaining.mapM tr.apply with
          | .error e => .error e
          | .ok vals => buildArgs ts (arg :: rest) (upsert acc n (.list vals))
        | none => buildArgs ts (arg :: rest) (upsert acc n (.list (remaining.map .str)))
      else
        match t.transform with
        | some tr =>
          match tr.apply arg with
          | .error e => .error e
          | .ok v => buildArgs ts rest (upsert acc n v)
        | none => buildArgs ts rest (upsert acc n (.str arg))
    | none => buildArgs ts rest acc

/-- The `InjectionError` raised by `_Injection.resolve` (kien/commands.py
lines 471-477); its message interpolates the missing source key and the
parameter name it was bound to, carried here as fields. -/
structure InjectionError where
  source : String
  name : String
deriving Repr, DecidableEq

/-- A command function's signature as consulted by `_Injection._get_default`:
parameter names with their declared defaults (`none` meaning
`parameter.empty`, i.e. no default). -/
structure FuncSig where
  params : List (String × Option PyVal)

/-- Lookup of a parameter in the signature. -/
def FuncSig.param? (sig : FuncSig) (k : String) : Option (Option PyVal) :=
  (sig.params.find? (fun p => p.1 == k)).map (·.2)

/-- `_Injection._get_default(func)` (kien/commands.py lines 457-463): a
declared signature default for the parameter named after the injection key
wins; otherwise the injection's configured default (still possibly
`_Undefined`). -/
def Injection.getDefault (inj : Injection) (sig : FuncSig) : Option PyVal :=
  match sig.param? inj.key with
  | some (some d) => some d
  | _ => inj.default

/-- `_Injection.resolve(func, require)` (kien/commands.py lines 465-480).
`provided` is the (already materialised) sequence the `require` generator
would yield for the key.  `list(generator)` never raises `StopIteration`,
so the `collect` path succeeds even on an empty sequence; only `next` on an
empty generator reaches the default lookup and, failing that, the
`InjectionError`. -/
def Injection.resolve (inj : Injection) (sig : FuncSig) (provided : List PyVal) :
    Except InjectionError (String × PyVal) :=
  if inj.collect then .ok (inj.injectAs, .list provided)
  else
    match provided with
    | v :: _ => .ok (inj.injectAs, v)
    | [] =>
      match inj.getDefault sig with
      | some d => .ok (inj.injectAs, d)
      | none => .error ⟨inj.key, inj.injectAs⟩

section ProvideContext

variable {α : Type}

/-- Lookup in the commander's `context` dict (value, is_getter). -/
def ctxGet (ctx : List (String × α × Bool)) (k : String) : Option (α × Bool) :=
  (ctx.find? (fun p => p.1 == k)).map (·.2)

/-- Dict assignment into the `context` dict. -/
def ctxSet (ctx : List (String × α × Bool)) (k : String) (v : α × Bool) :
    List (String × α × Bool) :=
  if ctx.any (fun p => p.1 == k) then ctx.map (fun p => if p.1 == k then (k, v) else p)
  else ctx ++ [(k, v)]

/-- `context.pop(key)`. -/
def ctxPop (ctx : List (String × α × Bool)) (k : String) : List (String × α × Bool) :=
  ctx.filter (fun p => p.1 != k)

/-- `_provide.__init__` (kien/commands.py lines 514-517): entering the
`with` statement stores `(obj, is_getter)` under the key (`__enter__` is a
no-op). -/
def provideInit (ctx : List (String × α × Bool)) (key : String) (obj : α)
    (isGetter : Bool) : List (String × α × Bool) :=
  ctxSet ctx key (obj, isGetter)

/-- `_provide.__exit__` (kien/commands.py lines 522-526): remove the key
only when the stored value is still the one this scope provided (Python
compares with `is`; identity is modelled as equality, which agrees on the
distinct atoms used here). -/
def provideExit [BEq α] (ctx : List (String × α × Bool)) (key : String) (obj : α) :
    List (String × α × Bool) :=
  match ctxGet ctx key with
  | none => ctx
  | some (cur, _) => if cur == obj then ctxPop ctx key else ctx

/-- The values `_require(key)` (kien/commands.py lines 502-511) yields from
the static context and the `context` dict, in order.  A getter is modelled
by its current value; the broadcast-signal layer is empty when no commander
was composed, as in the scenarios under study. -/
def requireValues (static : List (String × α)) (ctx : List (String × α × Bool))
    (k : String) : List α :=
  (match static.find? (fun p => p.1 == k) with
   | some p => [p.2]
   | none => []) ++
  (match ctxGet ctx k with
   | some (v, _) => [v]
   | none => [])

end ProvideContext

/-- One `_CommandMatch` as held in `_CommandMatches`: the command together
with its classification. -/
structure CmdMatch where
  command : Cmd
  result : MatchRes

/-- `_resolve_commands(args)` (kien/commands.py lines 499-500): match the
args against every executable (`filter_public_commands`) command. -/
def resolveAll (cmds : List Cmd) (args : List String) : List CmdMatch :=
  (cmds.filter (fun c => c.isExecutable)).map (fun c => ⟨c, c.matchArgs args⟩)

/-- `exact_match` (kien/commands.py lines 275-283): filter to
`_ExactCommandMatch` results; more than one raises `AmbiguousCommandError`
(modelled as the `.error` carrying those matches), exactly one is returned,
none yields `None`. -/
def exactMatch (ms : List CmdMatch) : Except (List CmdMatch) (Option CmdMatch) :=
  let es := ms.filter (fun m => m.result.isExact)
  if 1 < es.length then .error es
  else
    match es with
    | [e] => .ok (some e)
    | _ => .ok none

/-- `<tag>text</tag>` rendering of `TaggedString` (kien/utils.py
lines 153-169). -/
def tagStr (tag s : String) : String :=
  "<" ++ tag ++ ">" ++ s ++ "</" ++ tag ++ ">"

/-- `_Token.get_label(with_error)` (kien/commands.py lines 76-101): the
upper-cased name or the literal value, wrapped for greedy/optional tokens
and tagged as a variable for required named tokens.  `none` models the
`ValueError` raised when neither a name nor a usable literal value exists. -/
def Token.getLabel (t : Token) (withError : Bool) : Option String :=
  match (match pyTruthy t.name with
         | some n => some n.toUpper
         | none => pyTruthy t.value) with
  | none => none
  | some base =>
    let s1 := if t.greedy then "[" ++ base ++ " [...]]" else base
    let s2 :=
      if t.isOptional then
        "[" ++ (if withError then tagStr "error" s1 else tagStr "optional" s1) ++ "]"
      else s1
    some (if (pyTruthy t.name).isSome && !t.isOptional then tagStr "var" s2 else s2)

/-- `_Command.get_label()` without errors (kien/commands.py lines 366-379):
the space-joined labels of `all_tokens`. -/
def cmdLabel (c : Cmd) : Option String :=
  (c.all_tokens.mapM (fun (t : Token) => t.getLabel false)).map (String.intercalate " ")

/-- `_filter_matches(include=(EXACT, PARTIAL))` as used by
`find_suggestable_matches` (kien/commands.py lines 216-230): the included
matches stably sorted by match type, whose enum string order puts
`'exact'` before `'partial'`. -/
def suggestableOf (ms : List CmdMatch) : List CmdMatch :=
  ms.filter (fun m => m.result.isExact) ++ ms.filter (fun m => m.result.isPart)

/-- `find_suggestable_matches(resolve, args)` (kien/commands.py
lines 229-237): keep the Exact/Partial matches if any; otherwise, while at
least two args remain, drop the last raw arg and re-resolve; else give up. -/
def findSuggestable (cmds : List Cmd) (args : List String) : List CmdMatch :=
  let ms := suggestableOf (resolveAll cmds args)
  if ms.isEmpty then
    if _h : 2 ≤ args.length then findSuggestable cmds args.dropLast else []
  else ms
termination_by args.length
decreasing_by simp [List.length_dropLast]; omega

/-- `suggestion(resolve, args)` (kien/commands.py lines 239-273) as the
list of yielded lines (the decorator joins them with newlines).  `none`
models a crash while rendering (a label `ValueError`, or the
`token_mismatches` attribute access on an Invalid match, which
`find_suggestable_matches` never produces). -/
def suggestionLines (cmds : List Cmd) (args : List String) : Option (List String) :=
  match findSuggestable cmds args with
  | [m] =>
    match m.result with
    | .exact =>
      (cmdLabel m.command).map (fun lbl =>
        ["You have provided too many arguments for this command.", "Usage:\n\t" ++ lbl])
    | .part _ mismatches =>
      if mismatches.isEmpty then
        (cmdLabel m.command).map (fun lbl =>
          ["You have not provided sufficient arguments for this command.",
           "Usage:\n\t" ++ lbl])
      else
        mismatches.mapM (fun mm =>
          (mm.token.getLabel false).map (fun lbl => lbl ++ ": " ++ mm.exception.message))
    | .invalid => none
  | ms =>
    let headLine := "Could not find the command for \"" ++ String.intercalate " " args ++ "\""
    if ms.isEmpty then some [headLine]
    else
      (ms.mapM (fun m => cmdLabel m.command)).map (fun labels =>
        headLine ::
          (if ms.length == 1 then "Did you mean:" else "Did you mean one of:") ::
          labels.map (fun l => "\t" ++ l))

/-- A registry with the single command `cmd` (one literal keyword), used to
exercise the suggestion shrink-search scenario of the specification. -/
def demoCmd : Cmd := .root [keyword "cmd"] false false []

/-- The registered command list of the shrink-search scenario. -/
def demoCmds : List Cmd := [demoCmd]

end Kien

namespace Kien

/-- C8: `to_bool` returns `True` exactly on the five true-choices, `False`
exactly on the five false-choices, raises `ValidationError` exactly on every
other string, and its `assert False` branch is unreachable. -/
theorem to_bool_classifies (s : String) :
    (to_bool s = .ok true ↔ s ∈ TRUE_CHOICES) ∧
    (to_bool s = .ok false ↔ s ∈ FALSE_CHOICES) ∧
    ((∃ e, to_bool s = .error (.validation e)) ↔ (s ∉ TRUE_CHOICES ∧ s ∉ FALSE_CHOICES)) ∧
    to_bool s ≠ .error .assertion := by
  have hdisj : s ∈ TRUE_CHOICES → s ∈ FALSE_CHOICES → False := by
    intro ht hf
    simp only [TRUE_CHOICES, List.mem_cons, List.mem_singleton, List.not_mem_nil] at ht
    rcases ht with rfl | rfl | rfl | rfl | rfl | h
    all_goals simp_all [FALSE_CHOICES]
  by_cases ht : s ∈ TRUE_CHOICES
  · have hf : s ∉ FALSE_CHOICES := fun hf => hdisj ht hf
    have hu : s ∈ TRUE_CHOICES ++ FALSE_CHOICES := List.mem_append_left _ ht
    simp [to_bool, one_of, hu, ht, hf]
  · by_cases hf : s ∈ FALSE_CHOICES
    · have hu : s ∈ TRUE_CHOICES ++ FALSE_CHOICES := List.mem_append_right _ hf
      simp [to_bool, one_of, hu, ht, hf]
    · have hu : s ∉ TRUE_CHOICES ++ FALSE_CHOICES := by
        intro h
        rcases List.mem_append.mp h with h' | h'
        · exact ht h'
        · exact hf h'
      simp [to_bool, one_of, hu, ht, hf]

/-- The fused scanning loop equals the two-phase reading: collect the
mismatches first (aborting on Invalid), then classify by the leftover
tokens past the consumed prefix. -/
theorem matchScan_char (tokens : List Token) :
    ∀ (args : List String) (index : Nat) (acc : List TokenMismatch),
      matchScan tokens index acc args =
        match collectMismatches tokens index args with
        | none => MatchRes.invalid
        | some ms => leftoverResult tokens (index + args.length) (acc ++ ms) := by
  intro args
  induction args with
  | nil =>
    intro index acc
    simp [matchScan, collectMismatches]
  | cons a rest ih =>
    intro index acc
    simp only [matchScan, collectMismatches]
    cases hft : findToken tokens index with
    | none => rfl
    | some t =>
      dsimp only
      cases hm : t.matchesArg a with
      | ok b =>
        cases b with
        | false => rfl
        | true =>
          dsimp only
          rw [ih]
          cases hc : collectMismatches tokens (index + 1) rest with
          | none => rfl
          | some ms =>
            dsimp only [leftoverResult]
            have harith : index + 1 + rest.length = index + (a :: rest).length := by
              simp
              omega
            rw [harith]
      | error e =>
        dsimp only
        by_cases hv : t.isVariable = true
        · rw [if_pos hv, if_pos hv]
          rw [ih]
          cases hc : collectMismatches tokens (index + 1) rest with
          | none => rfl
          | some ms =>
            dsimp only [Option.map, leftoverResult]
            have harith : index + 1 + rest.length = index + (a :: rest).length := by
              simp
              omega
            have hlist : (acc ++ [(⟨t, e, a⟩ : TokenMismatch)]) ++ ms =
                acc ++ (⟨t, e, a⟩ :: ms) := by
              simp
            rw [harith, hlist]
        · rw [if_neg hv, if_neg hv]

/-- C1: for every executable command, `match` is the two-phase
classification: scan the args recording a `TokenMismatch` (and continuing)
whenever a variable token's validation raises; then the first required
leftover token makes the result Partial with the collected mismatches, a
nonempty mismatch list alone makes it Partial, and otherwise it is Exact. -/
theorem match_classification (c : Cmd) (args : List String)
    (hex : c.isExecutable = true) :
    c.matchArgs args =
      match collectMismatches c.all_tokens 0 args with
      | none => MatchRes.invalid
      | some ms =>
        match (c.all_tokens.drop args.length).find? (fun t => !t.isOptional) with
        | some t => MatchRes.part (some t) ms
        | none => if ms.isEmpty then MatchRes.exact else MatchRes.part none ms := by
  unfold Cmd.matchArgs
  rw [hex]
  simp only [Bool.not_true, Bool.false_eq_true, if_false]
  rw [matchScan_char]
  cases hc : collectMismatches c.all_tokens 0 args with
  | none => rfl
  | some ms => simp [leftoverResult]

/-- Evaluation witness for C1 at the concrete one-keyword command and the
exactly-matching argument list. -/
theorem match_classification_witness :
    demoCmd.matchArgs ["cmd"] =
      (match collectMismatches demoCmd.all_tokens 0 ["cmd"] with
       | none => MatchRes.invalid
       | some ms =>
         match (demoCmd.all_tokens.drop 1).find? (fun t => !t.isOptional) with
         | some t => MatchRes.part (some t) ms
         | none => if ms.isEmpty then MatchRes.exact else MatchRes.part none ms) :=
  match_classification demoCmd ["cmd"] rfl

/-- C7: `all_tokens` is the parent chain's tokens followed by the command's
own tokens, at every depth of parenting: the one-step equation for commands
with and without a parent, and the multi-level unrolling along the whole
parent chain. -/
theorem all_tokens_parent_concat :
    (∀ c p : Cmd, c.parent = some p → c.all_tokens = p.all_tokens ++ c.tokens) ∧
    (∀ c : Cmd, c.parent = none → c.all_tokens = c.tokens) ∧
    (∀ c : Cmd, c.all_tokens = c.chainTokens.flatten) := by
  refine ⟨?_, ?_, ?_⟩
  · intro c p hp
    cases c with
    | root ts a d i => simp [Cmd.parent] at hp
    | child ts a d i q =>
      simp only [Cmd.parent, Option.some.injEq] at hp
      subst hp
      rfl
  · intro c hp
    cases c with
    | root ts a d i => rfl
    | child ts a d i q => simp [Cmd.parent] at hp
  · intro c
    induction c with
    | root ts a d i => simp [Cmd.all_tokens, Cmd.chainTokens]
    | child ts a d i q ih => simp [Cmd.all_tokens, Cmd.chainTokens, ih]

/-- Evaluation witness for C7 at a concrete one-level parent chain. -/
theorem all_tokens_parent_concat_witness :
    (Cmd.child [keyword "x"] false false [] demoCmd).all_tokens =
      demoCmd.all_tokens ++ [keyword "x"] :=
  all_tokens_parent_concat.1 (Cmd.child [keyword "x"] false false [] demoCmd) demoCmd rfl

/-- Scanning with more args than tokens and no greedy tail always falls off
the chain (`_find_token` raises `IndexError`) and yields Invalid, whatever
happened on the consumed prefix. -/
theorem matchScan_overflow (tokens : List Token) (hng : noGreedyTail tokens) :
    ∀ (args : List String) (index : Nat) (acc : List TokenMismatch),
      tokens.length < index + args.length → index ≤ tokens.length →
      matchScan tokens index acc args = MatchRes.invalid := by
  intro args
  induction args with
  | nil =>
    intro index acc h1 h2
    simp only [List.length_nil, Nat.add_zero] at h1
    omega
  | cons a rest ih =>
    intro index acc h1 h2
    simp only [List.length_cons] at h1
    by_cases hidx : index < tokens.length
    · have hft : findToken tokens index = some (tokens.get ⟨index, hidx⟩) := by
        simp [findToken, hidx]
      simp only [matchScan, hft]
      cases hm : (tokens.get ⟨index, hidx⟩).matchesArg a with
      | ok b =>
        cases b with
        | false => rfl
        | true => exact ih (index + 1) acc (by omega) (by omega)
      | error e =>
        dsimp only
        by_cases hv : (tokens.get ⟨index, hidx⟩).isVariable = true
        · rw [if_pos hv]
          exact ih (index + 1) _ (by omega) (by omega)
        · rw [if_neg hv]
    · have hft : findToken tokens index = none := by
        simp only [findToken]
        rw [dif_neg hidx]
        cases hl : tokens.getLast? with
        | none => rfl
        | some t =>
          have := hng t hl
          simp [this]
      simp [matchScan, hft]

/-- C10: `match` always produces one of the three classifications (the
embedding is total: every `ValidationError` is caught and converted, and
the `IndexError` from `_find_token` is caught), and in particular more args
than tokens with no greedy tail (an empty chain included) yields Invalid
via the caught `IndexError`. -/
theorem match_total_classification (c : Cmd) (args : List String) :
    (c.matchArgs args = MatchRes.invalid ∨
      (∃ t ms, c.matchArgs args = MatchRes.part t ms) ∨
      c.matchArgs args = MatchRes.exact) ∧
    (noGreedyTail c.all_tokens → c.all_tokens.length < args.length →
      c.matchArgs args = MatchRes.invalid) := by
  constructor
  · cases h : c.matchArgs args with
    | invalid => exact Or.inl rfl
    | part t ms => exact Or.inr (Or.inl ⟨t, ms, rfl⟩)
    | exact => exact Or.inr (Or.inr rfl)
  · intro hng hlen
    unfold Cmd.matchArgs
    cases hex : c.isExecutable with
    | false => simp
    | true =>
      simp only [Bool.not_true, Bool.false_eq_true, if_false]
      exact matchScan_overflow c.all_tokens hng args 0 [] (by omega) (by omega)

/-- Evaluation witness for C10: the one-keyword command with two args has
no greedy tail, so the overflow branch applies and the result is Invalid. -/
theorem match_total_classification_witness :
    demoCmd.matchArgs ["cmd", "x"] = MatchRes.invalid :=
  (match_total_classification demoCmd ["cmd", "x"]).2
    (by
      intro t h
      cases h
      rfl)
    (by simp [demoCmd, Cmd.all_tokens])

/-- Evaluation witness for C8 at a true-choice input. -/
theorem to_bool_classifies_witness : to_bool "on" = Except.ok true :=
  (to_bool_classifies "on").1.mpr (by decide)

/-- C2: `exact_match` on a match set returns `None` for zero Exact matches,
the single Exact match when exactly one exists, and raises
`AmbiguousCommandError` (carrying the Exact matches) when more than one
exists. -/
theorem exactMatch_classifies (ms : List CmdMatch) :
    ((ms.filter (fun m => m.result.isExact)).length = 0 → exactMatch ms = .ok none) ∧
    (∀ e, ms.filter (fun m => m.result.isExact) = [e] → exactMatch ms = .ok (some e)) ∧
    (1 < (ms.filter (fun m => m.result.isExact)).length →
      exactMatch ms = .error (ms.filter (fun m => m.result.isExact))) := by
  refine ⟨?_, ?_, ?_⟩
  · intro h
    have hnil : ms.filter (fun m => m.result.isExact) = [] := List.length_eq_zero.mp h
    simp [exactMatch, hnil]
  · intro e h
    simp [exactMatch, h]
  · intro h
    simp only [exactMatch]
    rw [if_pos h]

/-- Evaluation witness for C2 at a two-element match set with exactly one
Exact entry. -/
theorem exactMatch_classifies_witness :
    exactMatch [⟨demoCmd, MatchRes.exact⟩, ⟨demoCmd, MatchRes.invalid⟩] =
      Except.ok (some ⟨demoCmd, MatchRes.exact⟩) :=
  (exactMatch_classifies [⟨demoCmd, MatchRes.exact⟩, ⟨demoCmd, MatchRes.invalid⟩]).2.1
    ⟨demoCmd, MatchRes.exact⟩ rfl

/-- C3 counterexample: provide("k", A), then nested provide("k", B), then
exit the inner scope.  B is still the current value, so `__exit__` pops the
key: a subsequent require("k") yields nothing at all — it does not yield A
as the claim states. -/
theorem provide_nested_exit_counterexample :
    requireValues ([] : List (String × String))
      (provideExit (provideInit (provideInit [] "k" "A" false) "k" "B" false) "k" "B")
      "k" = [] ∧
    ¬ requireValues ([] : List (String × String))
      (provideExit (provideInit (provideInit [] "k" "A" false) "k" "B" false) "k" "B")
      "k" = ["A"] := by
  constructor
  · rfl
  · intro h
    rw [show requireValues ([] : List (String × String))
        (provideExit (provideInit (provideInit [] "k" "A" false) "k" "B" false) "k" "B")
        "k" = [] from rfl] at h
    cases h

/-- C3 amended: after provide(k, A) and a nested provide(k, B), exiting the
inner scope removes the key entirely (B is still current, so it is popped);
require(k) then yields no context value — A is not restored.  The exit
guard instead protects a later re-provision: if the key was rebound to some
C different from B before B's scope exits, the exit leaves C in place. -/
theorem provide_nested_exit_amended :
    (∀ (k A B : String) (g1 g2 : Bool),
      requireValues ([] : List (String × String))
        (provideExit (provideInit (provideInit [] k A g1) k B g2) k B) k = []) ∧
    (∀ (k A B C : String) (g1 g2 g3 : Bool), C ≠ B →
      ctxGet (provideExit
        (provideInit (provideInit (provideInit ([] : List (String × String × Bool)) k A g1)
          k B g2) k C g3) k B) k = some (C, g3)) := by
  constructor
  · intro k A B g1 g2
    simp [requireValues, provideExit, provideInit, ctxSet, ctxGet, ctxPop,
      List.find?, List.filter, List.any]
  · intro k A B C g1 g2 g3 hCB
    simp [provideExit, provideInit, ctxSet, ctxGet, ctxPop,
      List.find?, List.any, hCB]

/-- Evaluation witness for C3's amended guard clause at distinct concrete
values. -/
theorem provide_nested_exit_amended_witness :
    ctxGet (provideExit
      (provideInit (provideInit (provideInit ([] : List (String × String × Bool)) "k" "A" false)
        "k" "B" false) "k" "C" true) "k" "B") "k" = some ("C", true) :=
  provide_nested_exit_amended.2 "k" "A" "B" "C" false false true (by decide)

/-- C4: the suggestion search keeps any Exact/Partial matches; with none
and at least two args it drops the last raw arg and re-resolves, and with
fewer than two args it gives up; concretely, for input
`["cmd", "extra1", "extra2"]` over a registry where `["cmd"]` alone is
Exact, the rendered suggestion reports too many arguments with the
command's usage label. -/
theorem suggestion_shrink_search :
    (∀ (cmds : List Cmd) (args : List String),
      suggestableOf (resolveAll cmds args) = [] → 2 ≤ args.length →
      findSuggestable cmds args = findSuggestable cmds args.dropLast) ∧
    (∀ (cmds : List Cmd) (args : List String),
      suggestableOf (resolveAll cmds args) = [] → args.length < 2 →
      findSuggestable cmds args = []) ∧
    (∀ (cmds : List Cmd) (args : List String),
      suggestableOf (resolveAll cmds args) ≠ [] →
      findSuggestable cmds args = suggestableOf (resolveAll cmds args)) ∧
    demoCmd.matchArgs ["cmd"] = MatchRes.exact ∧
    suggestionLines demoCmds ["cmd", "extra1", "extra2"] =
      some ["You have provided too many arguments for this command.", "Usage:\n\tcmd"] := by
  have hstep : ∀ (cmds : List Cmd) (args : List String),
      suggestableOf (resolveAll cmds args) = [] → 2 ≤ args.length →
      findSuggestable cmds args = findSuggestable cmds args.dropLast := by
    intro cmds args h h2
    conv_lhs => rw [findSuggestable.eq_def]
    simp [h, h2]
  have hstop : ∀ (cmds : List Cmd) (args : List String),
      suggestableOf (resolveAll cmds args) = [] → args.length < 2 →
      findSuggestable cmds args = [] := by
    intro cmds args h h2
    have hn : ¬ 2 ≤ args.length := by omega
    conv_lhs => rw [findSuggestable.eq_def]
    simp [h, hn]
  have hfound : ∀ (cmds : List Cmd) (args : List String),
      suggestableOf (resolveAll cmds args) ≠ [] →
      findSuggestable cmds args = suggestableOf (resolveAll cmds args) := by
    intro cmds args h
    obtain ⟨x, xs, hxx⟩ := List.exists_cons_of_ne_nil h
    conv_lhs => rw [findSuggestable.eq_def]
    simp [hxx]
  refine ⟨hstep, hstop, hfound, rfl, ?_⟩
  have e1 : suggestableOf (resolveAll demoCmds ["cmd"]) = [⟨demoCmd, MatchRes.exact⟩] := rfl
  have h3 : findSuggestable demoCmds ["cmd", "extra1", "extra2"] =
      findSuggestable demoCmds ["cmd", "extra1"] :=
    hstep demoCmds ["cmd", "extra1", "extra2"] rfl (by norm_num)
  have h2 : findSuggestable demoCmds ["cmd", "extra1"] =
      findSuggestable demoCmds ["cmd"] :=
    hstep demoCmds ["cmd", "extra1"] rfl (by norm_num)
  have h1 : findSuggestable demoCmds ["cmd"] = [⟨demoCmd, MatchRes.exact⟩] :=
    (hfound demoCmds ["cmd"] (by rw [e1]; exact List.cons_ne_nil _ _)).trans e1
  have hkey : findSuggestable demoCmds ["cmd", "extra1", "extra2"] =
      [⟨demoCmd, MatchRes.exact⟩] := (h3.trans h2).trans h1
  unfold suggestionLines
  rw [hkey]
  rfl

/-- Evaluation witness for C4's shrink step at a registry where nothing
matches the two-arg input. -/
theorem suggestion_shrink_search_witness :
    findSuggestable demoCmds ["a", "b"] = findSuggestable demoCmds ["a"] :=
  suggestion_shrink_search.1 demoCmds ["a", "b"] rfl (by norm_num)

/-- Looking up the key just written by a dict assignment. -/
theorem lookupVal_upsert_self (m : List (String × PyVal)) (k : String) (v : PyVal) :
    lookupVal (upsert m k v) k = some v := by
  unfold upsert
  by_cases hany : m.any (fun p => p.1 == k) = true
  · rw [if_pos hany]
    revert hany
    induction m with
    | nil => intro h; simp at h
    | cons p m' ih =>
      intro h
      simp only [List.any_cons, Bool.or_eq_true] at h
      by_cases hp : (p.1 == k) = true
      · have hpk : p.1 = k := by rwa [beq_iff_eq] at hp
        simp [lookupVal, List.find?_cons, hp, hpk]
      · have hm' : m'.any (fun q => q.1 == k) = true := by
          rcases h with h | h
          · exact absurd h hp
          · exact h
        have hrec := ih hm'
        simp only [List.map_cons, if_neg hp]
        simp only [lookupVal, List.find?_cons, hp] at hrec ⊢
        exact hrec
  · rw [if_neg hany]
    have hnone : m.find? (fun p => p.1 == k) = none := by
      rw [List.find?_eq_none]
      intro x hx hxk
      exact hany (List.any_eq_true.mpr ⟨x, hx, hxk⟩)
    simp [lookupVal, List.find?_append, hnone, List.find?_cons]

/-- A chain of non-greedy transform-free tokens followed by a trailing
greedy token: each leading token pops one arg and the greedy token is then
assigned the whole remaining argument list (`args[0:]`) as one value. -/
theorem buildArgs_greedy_aux (g : Token) (n : String)
    (hn : pyTruthy g.name = some n) (hg : g.greedy = true) (ht : g.transform = none) :
    ∀ (ts : List Token) (args : List String) (acc : List (String × PyVal)),
      (∀ t ∈ ts, t.greedy = false ∧ t.transform = none) →
      ts.length < args.length →
      ∃ acc2, buildArgs (ts ++ [g]) args acc =
        .ok (upsert acc2 n (PyVal.list ((args.drop ts.length).map PyVal.str))) := by
  intro ts
  induction ts with
  | nil =>
    intro args acc hts hlen
    cases args with
    | nil => simp at hlen
    | cons a rest =>
      refine ⟨acc, ?_⟩
      simp only [List.nil_append, buildArgs, hn, hg, ht, if_pos, List.drop_zero]
      rfl
  | cons t ts' ih =>
    intro args acc hts hlen
    cases args with
    | nil => simp at hlen
    | cons a rest =>
      have hts' : ∀ x ∈ ts', x.greedy = false ∧ x.transform = none :=
        fun x hx => hts x (List.mem_cons_of_mem _ hx)
      obtain ⟨htg, htt⟩ := hts t (List.mem_cons_self _ _)
      have hlen' : ts'.length < rest.length := by
        simp only [List.length_cons] at hlen
        omega
      have hrec := ih rest
      simp only [List.cons_append, buildArgs, htg, htt]
      cases hname : pyTruthy t.name with
      | some m =>
        simp only [Bool.false_eq_true, if_false]
        obtain ⟨acc2, hacc2⟩ := hrec (upsert acc m (PyVal.str a)) hts' hlen'
        exact ⟨acc2, hacc2⟩
      | none =>
        obtain ⟨acc2, hacc2⟩ := hrec acc hts' hlen'
        exact ⟨acc2, hacc2⟩

/-- C5: for a command chain ending in a greedy variable token, once the
preceding (non-greedy, transform-free) tokens have each consumed one raw
argument, the greedy variable's parameter is bound to the single ordered
sequence of all remaining arguments, not to one argument per token. -/
theorem greedy_tail_binds_remaining (g : Token) (n : String) (ts : List Token)
    (args : List String)
    (hn : pyTruthy g.name = some n) (hg : g.greedy = true) (ht : g.transform = none)
    (hts : ∀ t ∈ ts, t.greedy = false ∧ t.transform = none)
    (hlen : ts.length < args.length) :
    ∃ res, buildArgs (ts ++ [g]) args [] = .ok res ∧
      lookupVal res n = some (PyVal.list ((args.drop ts.length).map PyVal.str)) := by
  obtain ⟨acc2, hacc2⟩ := buildArgs_greedy_aux g n hn hg ht ts args [] hts hlen
  exact ⟨_, hacc2, lookupVal_upsert_self acc2 n _⟩

/-- Evaluation witness for C5: `say NAMES [...]` given
`["say", "x", "y", "z"]` binds `names` to the sequence `["x", "y", "z"]`. -/
theorem greedy_tail_binds_remaining_witness :
    ∃ res, buildArgs ([keyword "say"] ++ [var "names" false true]) ["say", "x", "y", "z"] [] =
        .ok res ∧
      lookupVal res "names" =
        some (PyVal.list [PyVal.str "x", PyVal.str "y", PyVal.str "z"]) :=
  greedy_tail_binds_remaining (var "names" false true) "names" [keyword "say"]
    ["say", "x", "y", "z"] rfl rfl rfl
    (by
      intro t htm
      rw [List.mem_singleton] at htm
      subst htm
      exact ⟨rfl, rfl⟩)
    (by norm_num)

/-- C6 counterexample: an injection with collect=True, nothing provided and
no default resolves to the empty list — `list(generator)` on an empty
generator raises no `StopIteration`, so no `InjectionError` is raised,
contrary to the claim's "regardless of its collect flag". -/
theorem injection_collect_empty_counterexample :
    Injection.resolve ⟨"db", "db", true, none⟩ ⟨[]⟩ [] = .ok ("db", PyVal.list []) ∧
    ¬ ∃ e, Injection.resolve ⟨"db", "db", true, none⟩ ⟨[]⟩ [] = .error e := by
  refine ⟨rfl, ?_⟩
  rintro ⟨e, h⟩
  rw [show Injection.resolve ⟨"db", "db", true, none⟩ ⟨[]⟩ ([] : List PyVal) =
      Except.ok ("db", PyVal.list []) from rfl] at h
  cases h

/-- C6 amended: when the require generator yields nothing and no default is
available (neither in the function signature nor configured), resolution
raises an `InjectionError` naming the missing source key and the parameter
name it was bound to — for injections with collect=False; an injection with
collect=True instead resolves to the empty sequence. -/
theorem injection_missing_raises (inj : Injection) (sig : FuncSig) :
    (inj.collect = false → inj.getDefault sig = none →
      Injection.resolve inj sig [] = .error ⟨inj.key, inj.injectAs⟩) ∧
    (inj.collect = true → Injection.resolve inj sig [] = .ok (inj.injectAs, PyVal.list [])) := by
  constructor
  · intro hc hd
    simp [Injection.resolve, hc, hd]
  · intro hc
    simp [Injection.resolve, hc]

/-- Evaluation witness for C6's amended statement at a collect=False
injection with no provider and no default. -/
theorem injection_missing_raises_witness :
    Injection.resolve ⟨"db", "conn", false, none⟩ ⟨[]⟩ [] =
      .error ⟨"db", "conn"⟩ :=
  (injection_missing_raises ⟨"db", "conn", false, none⟩ ⟨[]⟩).1 rfl rfl

/-- C9: for a collect=False injection with nothing provided, a default
declared in the command function's signature for the parameter named after
the source key is injected and takes precedence over the injection's
configured default; the `InjectionError` is raised exactly when
`_get_default` finds nothing, i.e. when neither a signature default nor a
configured default exists. -/
theorem injection_default_precedence (inj : Injection) (sig : FuncSig)
    (hc : inj.collect = false) :
    (∀ d, sig.param? inj.key = some (some d) →
      Injection.resolve inj sig [] = .ok (inj.injectAs, d)) ∧
    (Injection.resolve inj sig [] = .error ⟨inj.key, inj.injectAs⟩ ↔
      inj.getDefault sig = none) ∧
    (inj.getDefault sig = none ↔
      ((∀ d, sig.param? inj.key ≠ some (some d)) ∧ inj.default = none)) := by
  refine ⟨?_, ?_, ?_⟩
  · intro d h
    simp [Injection.resolve, hc, Injection.getDefault, h]
  · cases hgd : inj.getDefault sig with
    | some d => simp [Injection.resolve, hc, hgd]
    | none => simp [Injection.resolve, hc, hgd]
  · cases hp : sig.param? inj.key with
    | none => simp [Injection.getDefault, hp]
    | some o =>
      cases o with
      | none => simp [Injection.getDefault, hp]
      | some d =>
        simp only [Injection.getDefault, hp]
        constructor
        · intro h
          cases h
        · rintro ⟨hall, _⟩
          exact (hall d rfl).elim

/-- Evaluation witness for C9: the signature default wins over a configured
default. -/
theorem injection_default_precedence_witness :
    Injection.resolve ⟨"w", "par", false, some (PyVal.str "cfg")⟩
      ⟨[("w", some (PyVal.str "sig"))]⟩ [] = .ok ("par", PyVal.str "sig") :=
  (injection_default_precedence ⟨"w", "par", false, some (PyVal.str "cfg")⟩
    ⟨[("w", some (PyVal.str "sig"))]⟩ rfl).1 (PyVal.str "sig") rfl

end Kien
